import Mathlib

/-!
Verification development for the file-ingestion-and-indexing pipeline of
`vllm/rag/ingest/scripts/main.py`.

The pipeline watches an inbox directory, and for each file: waits a settle
delay, loads the file into chunks (external loader), embeds and upserts the
chunks into a vector index, computes a category from the file extension, and
moves the file to `processed/<category>/<epochSeconds>_<name>`.  Every step of
one attempt runs inside a single try/except block; any exception is caught and
logged, leaving the file in the inbox.

Shallow embedding conventions:
* Files are identified by their name (the inbox is flat and non-recursive, so
  the final path component determines the file).
* The filesystem is a pair of finite-support maps: inbox name -> contents,
  and (category, destination name) -> contents.
* The vector index is a map (source path, chunk index) -> vector.  The
  per-chunk embed-and-upsert loop is not in this repository (it is delegated
  to the llama-index / Qdrant integration); it is modelled from the spec's
  interface: `upsert(collection, id, vector, payload)` keyed by
  (sourcePath, chunkIndex), one upsert per chunk, sequential.
* External failures (loader, embedding service, vector database, move) are
  injected through an environment `Env` fixed for one attempt.
* The settle delay (`time.sleep(1)`) has no observable effect in a
  single-attempt model and is not represented.
-/

namespace Ingest

/-- Embedding vectors, abstracted: the pipeline never inspects components. -/
abbrev Vec := List Int

/-- A chunk is the text unit produced by the document loader. -/
abbrev Chunk := String

/-- Errors that the steps of one processing attempt can raise. -/
inductive Err
  | load
  | embed
  | upsert
  | move
  | missing
deriving DecidableEq

/-- Terminal outcome of one processing attempt: `Done`, or `Failed` after a
caught exception. -/
inductive Outcome
  | done
  | failed (e : Err)
deriving DecidableEq

/-- Python `pathlib.Path(name).suffix`: the substring from the last dot of the
final component, provided that dot is neither the first nor the last
character; otherwise the empty string. -/
def pySuffix (name : String) : String :=
  let cs := name.toList
  match cs.reverse.findIdx? (fun c => c = '.') with
  | none => ""
  | some r =>
    let i := cs.length - 1 - r
    if 0 < i ∧ i < cs.length - 1 then String.mk (cs.drop i) else ""

/-- Python `str.lower()` on the characters of the string (the extensions the
table compares against are ASCII, where `Char.toLower` and Python agree). -/
def pyLower (s : String) : String :=
  String.mk (s.toList.map Char.toLower)

/-- `get_category` (main.py, lines 83-88): lower-case the extension and look
it up in a fixed table; anything unmatched is `Other`. -/
def get_category (file_path : String) : String :=
  let ext := pyLower (pySuffix file_path)
  if ext ∈ [".pdf"] then "PDF"
  else if ext ∈ [".md", ".txt", ".html", ".htm"] then "Documents"
  else if ext ∈ [".py", ".js", ".ts", ".go", ".cpp", ".h", ".java", ".yaml", ".yml"] then "Code"
  else "Other"

/-- The vector index: a record per (source path, chunk index) key. -/
abbrev Index := String × Nat → Option Vec

/-- Modelled from the spec: the vector database exposes
`upsert(collection, id, vector, payload)`, an insert-or-overwrite keyed by
identity; records are keyed by (sourcePath, chunkIndex). -/
def upsert (idx : Index) (k : String × Nat) (v : Vec) : Index :=
  Function.update idx k (some v)

/-- External behaviour injected into one processing attempt: the loader's
result, the embedding service, which upserts fail, whether the move fails,
and the epoch-seconds timestamp taken at move time. -/
structure Env where
  loadResult : Except Err (List Chunk)
  embed : Chunk → Except Err Vec
  ufail : Nat → Bool
  moveFails : Bool
  epoch : Nat

/-- Observable state: inbox (name -> contents), processed tree
((category, name) -> contents), and the vector index. -/
structure FS where
  inbox : String → Option String
  processed : String × String → Option String
  index : Index

/-- Modelled from the spec: the Embedding+Indexing step walks the chunks in
order; for each chunk it obtains a vector from the embedding service and
upserts it under key (path, chunk index).  The first failing step aborts the
walk, leaving the upserts already performed in place. -/
def runIndex (E : Chunk → Except Err Vec) (F : Nat → Bool) (p : String) :
    List Chunk → Nat → Index → Index × Option Err
  | [], _, idx => (idx, none)
  | c :: cs, i, idx =>
    match E c with
    | .error e => (idx, some e)
    | .ok v =>
      if F i then (idx, some .upsert)
      else runIndex E F p cs (i + 1) (upsert idx (p, i) v)

/-- Destination key of the archive move (main.py, lines 122-129):
category directory and `{epochSeconds}_{originalFilename}`. -/
def destKey (env : Env) (p : String) : String × String :=
  (get_category p, toString env.epoch ++ "_" ++ p)

/-- The body of `FileHandler.process_file` (main.py, lines 100-134), i.e. the
try block: load, index, categorize, move.  Returns the state reached together
with `some e` when a step raised `e` (the state at the raise), or `none` on
normal completion.  A missing source file makes the loader raise
(`SimpleDirectoryReader` validates its input files); `shutil.move` replaces an
existing destination file silently. -/
def processAttempt (env : Env) (fs : FS) (p : String) : FS × Option Err :=
  match fs.inbox p with
  | none => (fs, some .missing)
  | some content =>
    match env.loadResult with
    | .error e => (fs, some e)
    | .ok chunks =>
      match runIndex env.embed env.ufail p chunks 0 fs.index with
      | (idx', some e) => ({ fs with index := idx' }, some e)
      | (idx', none) =>
        if env.moveFails then ({ fs with index := idx' }, some .move)
        else
          ({ inbox := Function.update fs.inbox p none
             processed := Function.update fs.processed (destKey env p) (some content)
             index := idx' }, none)

/-- `FileHandler.process_file` with its surrounding try/except: every raise is
caught and turned into the `Failed` outcome; nothing propagates to the
caller. -/
def process_file (env : Env) (fs : FS) (p : String) : FS × Outcome :=
  match processAttempt env fs p with
  | (s, none) => (s, .done)
  | (s, some e) => (s, .failed e)

/-- A directory entry seen by the startup scan: its name and whether it is a
regular file (`Path.is_file()`). -/
structure Entry where
  name : String
  isFile : Bool
deriving DecidableEq

/-- The startup backlog scan (main.py, lines 154-157): iterate the inbox
entries, call `process_file` on every regular file, skip everything else.
Returns the final state and the trace of (path, outcome) per call made. -/
def backlogTrace (envf : String → Env) : FS → List Entry → FS × List (String × Outcome)
  | fs, [] => (fs, [])
  | fs, e :: es =>
    if e.isFile then
      let r := process_file (envf e.name) fs e.name
      let rest := backlogTrace envf r.1 es
      (rest.1, (e.name, r.2) :: rest.2)
    else backlogTrace envf fs es

/-- Names the backlog scan processes: the regular files, in directory order. -/
def backlogNames (es : List Entry) : List String :=
  (es.filter (fun e => e.isFile)).map Entry.name

/-- A live filesystem notification delivered to `FileHandler.on_created`. -/
structure FsEvent where
  srcPath : String
  isDirectory : Bool

/-- `FileHandler.on_created` (main.py, lines 96-98): process the path unless
the event is for a directory.  Returns the state and the trace of calls. -/
def on_created (env : Env) (fs : FS) (ev : FsEvent) : FS × List (String × Outcome) :=
  if ev.isDirectory then (fs, [])
  else
    let r := process_file env fs ev.srcPath
    (r.1, [(ev.srcPath, r.2)])

/-- One item of the embedding service's response body. -/
structure EmbItem where
  embedding : Vec
deriving DecidableEq

/-- Modelled from the spec: the embedding service answers a batch POST of
input texts with one data item per input text, in input order; `E` is the
embedding the service computes per text. -/
def embeddingService (E : String → Vec) (inputs : List String) : List EmbItem :=
  inputs.map (fun t => ⟨E t⟩)

/-- `InfinityEmbedding._get_text_embeddings` (main.py, lines 58-64): post the
batch and return `[item["embedding"] for item in response.json()["data"]]`. -/
def get_text_embeddings (E : String → Vec) (texts : List String) : List Vec :=
  (embeddingService E texts).map (fun item => item.embedding)

/-! ### Concrete instances used by witnesses and counterexamples -/

/-- An environment in which every step succeeds. -/
def env0 : Env where
  loadResult := .ok ["hello"]
  embed := fun _ => .ok [1]
  ufail := fun _ => false
  moveFails := false
  epoch := 5

/-- Like `env0` but the upsert of chunk 0 fails. -/
def env2 : Env where
  loadResult := .ok ["hello"]
  embed := fun _ => .ok [1]
  ufail := fun _ => true
  moveFails := false
  epoch := 5

/-- Three chunks; the upsert of chunk 1 (of 0,1,2) fails. -/
def env3 : Env where
  loadResult := .ok ["c0", "c1", "c2"]
  embed := fun _ => .ok [1]
  ufail := fun i => i == 1
  moveFails := false
  epoch := 5

/-- A state whose inbox holds `a.txt` and whose processed tree already holds a
file at the exact destination `process_file` will use for it. -/
def fs0 : FS where
  inbox := fun n => if n = "a.txt" then some "new" else none
  processed := fun k => if k = ("Documents", "5_a.txt") then some "old" else none
  index := fun _ => none

/-- The empty state: nothing in the inbox, nothing processed, empty index. -/
def fs1 : FS where
  inbox := fun _ => none
  processed := fun _ => none
  index := fun _ => none

/-! ### Branch characterizations of one processing attempt -/

/-- A missing source file makes the attempt raise out of the loader. -/
theorem processAttempt_missing (env : Env) (fs : FS) (p : String)
    (h : fs.inbox p = none) : processAttempt env fs p = (fs, some .missing) := by
  simp [processAttempt, h]

/-- A loader error aborts the attempt with the state untouched. -/
theorem processAttempt_load_error (env : Env) (fs : FS) (p c : String) (e : Err)
    (h : fs.inbox p = some c) (hL : env.loadResult = .error e) :
    processAttempt env fs p = (fs, some e) := by
  simp [processAttempt, h, hL]

/-- An embedding or upsert error aborts the attempt; the index keeps the
writes made so far, the inbox and processed tree are untouched. -/
theorem processAttempt_index_error (env : Env) (fs : FS) (p c : String)
    (chunks : List Chunk) (idx' : Index) (e : Err) (h : fs.inbox p = some c)
    (hL : env.loadResult = .ok chunks)
    (hR : runIndex env.embed env.ufail p chunks 0 fs.index = (idx', some e)) :
    processAttempt env fs p = ({ fs with index := idx' }, some e) := by
  simp [processAttempt, h, hL, hR]

/-- A failing move aborts the attempt after the index writes; the inbox and
processed tree are untouched. -/
theorem processAttempt_move_error (env : Env) (fs : FS) (p c : String)
    (chunks : List Chunk) (idx' : Index) (h : fs.inbox p = some c)
    (hL : env.loadResult = .ok chunks)
    (hR : runIndex env.embed env.ufail p chunks 0 fs.index = (idx', none))
    (hM : env.moveFails = true) :
    processAttempt env fs p = ({ fs with index := idx' }, some .move) := by
  simp [processAttempt, h, hL, hR, hM]

/-- The normal path: all chunks indexed, then the file moved from the inbox
to its destination key. -/
theorem processAttempt_ok (env : Env) (fs : FS) (p c : String)
    (chunks : List Chunk) (idx' : Index) (h : fs.inbox p = some c)
    (hL : env.loadResult = .ok chunks)
    (hR : runIndex env.embed env.ufail p chunks 0 fs.index = (idx', none))
    (hM : env.moveFails = false) :
    processAttempt env fs p =
      ({ inbox := Function.update fs.inbox p none
         processed := Function.update fs.processed (destKey env p) (some c)
         index := idx' }, none) := by
  simp [processAttempt, h, hL, hR, hM]

/-! ### Properties of the modelled Embedding+Indexing walk -/

/-- Frame property: the walk only ever writes keys (p, m) with
`i ≤ m < i + cs.length`; every other key keeps its previous record. -/
theorem runIndex_fst_apply (E : Chunk → Except Err Vec) (F : Nat → Bool) (p : String) :
    ∀ (cs : List Chunk) (i : Nat) (idx : Index) (q : String) (m : Nat),
      (q ≠ p ∨ m < i ∨ i + cs.length ≤ m) →
      (runIndex E F p cs i idx).1 (q, m) = idx (q, m) := by
  intro cs
  induction cs with
  | nil => intro i idx q m _; simp [runIndex]
  | cons c cs ih =>
    intro i idx q m h
    simp only [runIndex]
    cases hE : E c with
    | error e => simp
    | ok v =>
      by_cases hF : F i
      · simp [hF]
      · simp only [hF, if_false, Bool.false_eq_true]
        have hne : (q, m) ≠ (p, i) := by
          rcases h with h | h | h
          · exact fun hqm => h (congrArg Prod.fst hqm)
          · exact fun hqm => Nat.lt_irrefl i (by
              have := congrArg Prod.snd hqm
              simp at this
              omega)
          · exact fun hqm => by
              have := congrArg Prod.snd hqm
              simp at this
              simp [List.length_cons] at h
              omega
        rw [ih (i + 1) _ q m ?_]
        · show Function.update idx (p, i) (some v) (q, m) = idx (q, m)
          exact Function.update_noteq hne _ _
        · rcases h with h | h | h
          · exact Or.inl h
          · exact Or.inr (Or.inl (Nat.lt_succ_of_lt h))
          · refine Or.inr (Or.inr ?_)
            simp [List.length_cons] at h ⊢
            omega

/-- Success characterization: when the walk reports no error, every chunk j
was embedded and its record is present at key (p, i + j). -/
theorem runIndex_success (E : Chunk → Except Err Vec) (F : Nat → Bool) (p : String) :
    ∀ (cs : List Chunk) (i : Nat) (idx : Index),
      (runIndex E F p cs i idx).2 = none →
      ∀ j (hj : j < cs.length), ∃ v,
        E (cs.get ⟨j, hj⟩) = .ok v ∧
        (runIndex E F p cs i idx).1 (p, i + j) = some v := by
  intro cs
  induction cs with
  | nil => intro i idx _ j hj; exact absurd hj (by simp)
  | cons c cs ih =>
    intro i idx hnone j hj
    simp only [runIndex] at hnone ⊢
    cases hE : E c with
    | error e => rw [hE] at hnone; simp at hnone
    | ok v =>
      rw [hE] at hnone
      by_cases hF : F i
      · simp [hF] at hnone
      · simp only [hF, if_false, Bool.false_eq_true] at hnone ⊢
        cases j with
        | zero =>
          refine ⟨v, hE, ?_⟩
          rw [runIndex_fst_apply E F p cs (i + 1) _ p (i + 0)
            (Or.inr (Or.inl (by omega)))]
          simp [upsert, Function.update_same]
        | succ j' =>
          have hj' : j' < cs.length := by
            simp [List.length_cons] at hj
            omega
          obtain ⟨v', hv1, hv2⟩ := ih (i + 1) (upsert idx (p, i) v) hnone j' hj'
          refine ⟨v', hv1, ?_⟩
          rw [show i + (j' + 1) = (i + 1) + j' by omega]
          exact hv2

/-- Re-running the walk over the index state it produced changes nothing:
each step re-embeds the same chunk, upserts the same record under the same
key, and stops at the same place. -/
theorem runIndex_idem (E : Chunk → Except Err Vec) (F : Nat → Bool) (p : String) :
    ∀ (cs : List Chunk) (i : Nat) (idx : Index),
      runIndex E F p cs i (runIndex E F p cs i idx).1 = runIndex E F p cs i idx := by
  intro cs
  induction cs with
  | nil => intro i idx; simp [runIndex]
  | cons c cs ih =>
    intro i idx
    simp only [runIndex]
    cases hE : E c with
    | error e => simp [runIndex, hE]
    | ok v =>
      by_cases hF : F i
      · simp [runIndex, hE, hF]
      · simp only [hF, if_false, Bool.false_eq_true]
        have hkey : (runIndex E F p cs (i + 1) (upsert idx (p, i) v)).1 (p, i) = some v := by
          rw [runIndex_fst_apply E F p cs (i + 1) _ p i (Or.inr (Or.inl (by omega)))]
          simp [upsert, Function.update_same]
        have hup : upsert (runIndex E F p cs (i + 1) (upsert idx (p, i) v)).1 (p, i) v =
            (runIndex E F p cs (i + 1) (upsert idx (p, i) v)).1 := by
          have h2 := Function.update_eq_self (p, i)
            (runIndex E F p cs (i + 1) (upsert idx (p, i) v)).1
          rw [hkey] at h2
          exact h2
        rw [hup]
        exact ih (i + 1) (upsert idx (p, i) v)

/-- The try/except wrapper on the normal path. -/
theorem process_file_done_of (env : Env) (fs : FS) (p : String) (s : FS)
    (hA : processAttempt env fs p = (s, none)) :
    process_file env fs p = (s, .done) := by
  simp [process_file, hA]

/-- The try/except wrapper on a raising path. -/
theorem process_file_failed_of (env : Env) (fs : FS) (p : String) (s : FS) (e : Err)
    (hA : processAttempt env fs p = (s, some e)) :
    process_file env fs p = (s, .failed e) := by
  simp [process_file, hA]

/-! ### Claims -/

/-- Claim C1: for every file placed in the inbox, after its processing
attempt completes (whether it ends in Done or Failed) the file exists in
exactly one of the inbox and processed-root/<category>: either it is still at
its inbox path with the processed tree unchanged, or it is gone from the
inbox and sits at its destination key — never both, never neither. -/
theorem c1_file_in_exactly_one_location (env : Env) (fs : FS) (p c : String)
    (h : fs.inbox p = some c) :
    Xor' ((process_file env fs p).1.inbox p = some c ∧
          (process_file env fs p).1.processed = fs.processed)
         ((process_file env fs p).1.inbox p = none ∧
          (process_file env fs p).1.processed (destKey env p) = some c) := by
  rcases hL : env.loadResult with e | chunks
  · rw [process_file_failed_of env fs p fs e (processAttempt_load_error env fs p c e h hL)]
    exact Or.inl ⟨⟨h, rfl⟩, fun hB => by simp [h] at hB⟩
  · rcases hR : runIndex env.embed env.ufail p chunks 0 fs.index with ⟨idx', e?⟩
    cases e? with
    | some e =>
      rw [process_file_failed_of env fs p _ e
        (processAttempt_index_error env fs p c chunks idx' e h hL hR)]
      exact Or.inl ⟨⟨h, rfl⟩, fun hB => by simp [h] at hB⟩
    | none =>
      cases hM : env.moveFails with
      | true =>
        rw [process_file_failed_of env fs p _ .move
          (processAttempt_move_error env fs p c chunks idx' h hL hR hM)]
        exact Or.inl ⟨⟨h, rfl⟩, fun hB => by simp [h] at hB⟩
      | false =>
        rw [process_file_done_of env fs p _
          (processAttempt_ok env fs p c chunks idx' h hL hR hM)]
        refine Or.inr ⟨⟨Function.update_same _ _ _, Function.update_same _ _ _⟩,
          fun hA => ?_⟩
        have h1 := hA.1
        simp [Function.update_same] at h1

/-- Witness for C1: a concrete successful run moves the file out of the inbox
to its destination. -/
theorem c1_witness :
    fs0.inbox "a.txt" = some "new" ∧
    Xor' ((process_file env0 fs0 "a.txt").1.inbox "a.txt" = some "new" ∧
          (process_file env0 fs0 "a.txt").1.processed = fs0.processed)
         ((process_file env0 fs0 "a.txt").1.inbox "a.txt" = none ∧
          (process_file env0 fs0 "a.txt").1.processed (destKey env0 "a.txt") = some "new") :=
  ⟨by decide, c1_file_in_exactly_one_location env0 fs0 "a.txt" "new" (by decide)⟩

/-- Claim C2: a file is never removed from the inbox unless its full index
write already succeeded: if the loader raises, or the chunk walk (embedding
or upsert) raises, the move is not performed — the file is still at its inbox
path and the processed tree is unchanged. -/
theorem c2_no_removal_without_index_success (env : Env) (fs : FS) (p c : String)
    (h : fs.inbox p = some c) :
    (∀ e, env.loadResult = .error e →
        (process_file env fs p).1.inbox p = some c ∧
        (process_file env fs p).1.processed = fs.processed) ∧
    (∀ chunks e, env.loadResult = .ok chunks →
        (runIndex env.embed env.ufail p chunks 0 fs.index).2 = some e →
        (process_file env fs p).1.inbox p = some c ∧
        (process_file env fs p).1.processed = fs.processed) := by
  constructor
  · intro e hL
    rw [process_file_failed_of env fs p fs e (processAttempt_load_error env fs p c e h hL)]
    exact ⟨h, rfl⟩
  · intro chunks e hL hR2
    rcases hR : runIndex env.embed env.ufail p chunks 0 fs.index with ⟨idx', e?⟩
    rw [hR] at hR2
    simp only at hR2
    subst hR2
    rw [process_file_failed_of env fs p _ e
      (processAttempt_index_error env fs p c chunks idx' e h hL hR)]
    exact ⟨h, rfl⟩

/-- Witness for C2: with the upsert of chunk 0 failing, the file stays in the
inbox and nothing is archived. -/
theorem c2_witness :
    fs0.inbox "a.txt" = some "new" ∧
    env2.loadResult = Except.ok ["hello"] ∧
    (runIndex env2.embed env2.ufail "a.txt" ["hello"] 0 fs0.index).2 = some Err.upsert ∧
    ((process_file env2 fs0 "a.txt").1.inbox "a.txt" = some "new" ∧
     (process_file env2 fs0 "a.txt").1.processed = fs0.processed) :=
  ⟨by decide, rfl, by decide,
    (c2_no_removal_without_index_success env2 fs0 "a.txt" "new" (by decide)).2
      ["hello"] Err.upsert rfl (by decide)⟩

/-- Claim C4: running the (spec-modelled, keyed) indexing step twice for the
same file leaves exactly the index of running it once — every record of the
second run overwrites the record the first run wrote under the same
(path, chunk index) key, and it stops at the same step. -/
theorem c4_reindex_idempotent (E : Chunk → Except Err Vec) (F : Nat → Bool)
    (p : String) (cs : List Chunk) (idx : Index) :
    runIndex E F p cs 0 (runIndex E F p cs 0 idx).1 = runIndex E F p cs 0 idx :=
  runIndex_idem E F p cs 0 idx

/-- Counterexample for C6: processing a path that is no longer present ends
in the Failed outcome (the loader's raise is caught and logged as an error),
not in a successful "already archived" Done. -/
theorem c6_counterexample_missing_file_is_error :
    fs1.inbox "a.txt" = none ∧
    (process_file env0 fs1 "a.txt").2 = .failed .missing := by
  exact ⟨rfl, by decide⟩

/-- Claim C6 as amended: processing an event for a file no longer at its
source path is a no-op on the state — inbox, processed tree and index are all
unchanged — and the service keeps running; but it is reported as an error:
the loader raises for the missing path, the exception is caught, and the
attempt ends Failed rather than being special-cased as already archived. -/
theorem c6_missing_file_noop_but_failed (env : Env) (fs : FS) (p : String)
    (h : fs.inbox p = none) :
    process_file env fs p = (fs, .failed .missing) :=
  process_file_failed_of env fs p fs .missing (processAttempt_missing env fs p h)

/-- Witness for C6 at a concrete empty state. -/
theorem c6_witness : process_file env0 fs1 "b.txt" = (fs1, .failed .missing) :=
  c6_missing_file_noop_but_failed env0 fs1 "b.txt" rfl

/-! ### The category table -/

/-- A `.pdf` extension (after lowering) maps to `PDF`. -/
theorem get_category_pdf (name : String) (h : pyLower (pySuffix name) = ".pdf") :
    get_category name = "PDF" := by
  unfold get_category
  rw [h]
  decide

/-- The document extensions map to `Documents`. -/
theorem get_category_documents (name : String)
    (h : pyLower (pySuffix name) ∈ ([".md", ".txt", ".html", ".htm"] : List String)) :
    get_category name = "Documents" := by
  unfold get_category
  generalize hE : pyLower (pySuffix name) = e at h ⊢
  simp only [List.mem_cons, List.not_mem_nil, or_false] at h
  rcases h with rfl | rfl | rfl | rfl <;> decide

/-- The code extensions map to `Code`. -/
theorem get_category_code (name : String)
    (h : pyLower (pySuffix name) ∈ ([".py", ".js", ".ts", ".go", ".cpp", ".h",
        ".java", ".yaml", ".yml"] : List String)) :
    get_category name = "Code" := by
  unfold get_category
  generalize hE : pyLower (pySuffix name) = e at h ⊢
  simp only [List.mem_cons, List.not_mem_nil, or_false] at h
  rcases h with rfl | rfl | rfl | rfl | rfl | rfl | rfl | rfl | rfl <;> decide

/-- Every extension outside the table maps to `Other`. -/
theorem get_category_other (name : String)
    (h : pyLower (pySuffix name) ∉ ([".pdf", ".md", ".txt", ".html", ".htm", ".py",
        ".js", ".ts", ".go", ".cpp", ".h", ".java", ".yaml", ".yml"] : List String)) :
    get_category name = "Other" := by
  unfold get_category
  generalize hE : pyLower (pySuffix name) = e at h ⊢
  simp only [List.mem_cons, List.not_mem_nil, or_false, not_or] at h
  obtain ⟨h1, h2, h3, h4, h5, h6, h7, h8, h9, h10, h11, h12, h13, h14⟩ := h
  simp [h1, h2, h3, h4, h5, h6, h7, h8, h9, h10, h11, h12, h13, h14]

/-- Counterexample for C3: a file with three chunks whose second upsert fails
ends the attempt Failed with the record of chunk 0 present and the records of
chunks 1 and 2 absent — a partial contribution, neither all three nor none. -/
theorem c3_counterexample_partial_records :
    env3.loadResult = Except.ok ["c0", "c1", "c2"] ∧
    (process_file env3 fs0 "a.txt").2 = .failed .upsert ∧
    (process_file env3 fs0 "a.txt").1.index ("a.txt", 0) = some [1] ∧
    (process_file env3 fs0 "a.txt").1.index ("a.txt", 1) = none ∧
    (process_file env3 fs0 "a.txt").1.index ("a.txt", 2) = none :=
  ⟨rfl, by decide, by decide, by decide, by decide⟩

/-- Claim C3 as amended: on a successful chunk walk every one of the n chunks
has its record present under key (path, chunk index) and no key outside
(path, 0..n-1) is touched; a failure partway may leave the records already
upserted in place (see the counterexample), and because the conclusion below
holds for an arbitrary starting index, a later successful attempt overwrites
exactly those keys with the full n records. -/
theorem c3_all_records_on_success_frame (env : Env) (fs : FS) (p c : String)
    (chunks : List Chunk) (h : fs.inbox p = some c) (hL : env.loadResult = .ok chunks)
    (hR : (runIndex env.embed env.ufail p chunks 0 fs.index).2 = none) :
    (∀ j (hj : j < chunks.length), ∃ v,
        env.embed (chunks.get ⟨j, hj⟩) = .ok v ∧
        (process_file env fs p).1.index (p, j) = some v) ∧
    (∀ q m, q ≠ p ∨ chunks.length ≤ m →
        (process_file env fs p).1.index (q, m) = fs.index (q, m)) := by
  rcases hRp : runIndex env.embed env.ufail p chunks 0 fs.index with ⟨idx', e?⟩
  rw [hRp] at hR
  simp only at hR
  subst hR
  have hidx : (process_file env fs p).1.index = idx' := by
    cases hM : env.moveFails with
    | true =>
      rw [process_file_failed_of env fs p _ .move
        (processAttempt_move_error env fs p c chunks idx' h hL hRp hM)]
    | false =>
      rw [process_file_done_of env fs p _
        (processAttempt_ok env fs p c chunks idx' h hL hRp hM)]
  constructor
  · intro j hj
    obtain ⟨v, hv1, hv2⟩ :=
      runIndex_success env.embed env.ufail p chunks 0 fs.index (by rw [hRp]) j hj
    refine ⟨v, hv1, ?_⟩
    rw [hidx]
    rw [hRp] at hv2
    simpa using hv2
  · intro q m hqm
    rw [hidx]
    have hfr := runIndex_fst_apply env.embed env.ufail p chunks 0 fs.index q m ?_
    · rw [hRp] at hfr
      exact hfr
    · rcases hqm with h' | h'
      · exact Or.inl h'
      · exact Or.inr (Or.inr (by omega))

/-- Witness for C3 (amended): a concrete successful one-chunk run leaves the
record of chunk 0 in the index. -/
theorem c3_witness :
    fs0.inbox "a.txt" = some "new" ∧
    (runIndex env0.embed env0.ufail "a.txt" ["hello"] 0 fs0.index).2 = none ∧
    (∃ v, env0.embed "hello" = .ok v ∧
      (process_file env0 fs0 "a.txt").1.index ("a.txt", 0) = some v) :=
  ⟨by decide, by decide,
    (c3_all_records_on_success_frame env0 fs0 "a.txt" "new" ["hello"]
      (by decide) rfl (by decide)).1 0 (by decide)⟩

/-- Counterexample for C5: a destination name that already exists in the
category directory is not treated as fatal — the move reports Done and the
old destination file has been silently replaced by the new contents. -/
theorem c5_counterexample_silent_overwrite :
    fs0.processed ("Documents", "5_a.txt") = some "old" ∧
    destKey env0 "a.txt" = ("Documents", "5_a.txt") ∧
    (process_file env0 fs0 "a.txt").2 = .done ∧
    (process_file env0 fs0 "a.txt").1.processed ("Documents", "5_a.txt") = some "new" :=
  ⟨by decide, by decide, by decide, by decide⟩

/-- Claim C5 as amended: the epoch-seconds prefix makes collisions unlikely
but they are not detected: when the destination name already exists in the
category directory, the move still completes the attempt as Done and the
destination record becomes the moved file's contents, silently replacing the
previous occupant (`shutil.move` overwrite semantics). -/
theorem c5_move_overwrites_existing_destination (env : Env) (fs : FS)
    (p c prev : String) (chunks : List Chunk)
    (h : fs.inbox p = some c) (hprev : fs.processed (destKey env p) = some prev)
    (hL : env.loadResult = .ok chunks)
    (hR : (runIndex env.embed env.ufail p chunks 0 fs.index).2 = none)
    (hM : env.moveFails = false) :
    (process_file env fs p).2 = .done ∧
    (process_file env fs p).1.processed (destKey env p) = some c := by
  rcases hRp : runIndex env.embed env.ufail p chunks 0 fs.index with ⟨idx', e?⟩
  rw [hRp] at hR
  simp only at hR
  subst hR
  rw [process_file_done_of env fs p _ (processAttempt_ok env fs p c chunks idx' h hL hRp hM)]
  exact ⟨rfl, Function.update_same _ _ _⟩

/-- Witness for C5 (amended): the concrete collision from the counterexample,
resolved by overwriting. -/
theorem c5_witness :
    fs0.processed (destKey env0 "a.txt") = some "old" ∧
    ((process_file env0 fs0 "a.txt").2 = .done ∧
     (process_file env0 fs0 "a.txt").1.processed (destKey env0 "a.txt") = some "new") :=
  ⟨by decide,
    c5_move_overwrites_existing_destination env0 fs0 "a.txt" "new" "old" ["hello"]
      (by decide) (by decide) rfl (by decide) rfl⟩

/-- Claim C7: a successfully processed file lands at
processed-root/{category}/{epochSeconds}_{originalFilename}, and the category
is the pure table function of the lower-cased extension: `.pdf` to PDF; `.md`,
`.txt`, `.html`, `.htm` to Documents; `.py`, `.js`, `.ts`, `.go`, `.cpp`,
`.h`, `.java`, `.yaml`, `.yml` to Code; everything else to Other. -/
theorem c7_destination_and_category_table (env : Env) (fs : FS) (p c : String)
    (chunks : List Chunk) (h : fs.inbox p = some c)
    (hL : env.loadResult = .ok chunks)
    (hR : (runIndex env.embed env.ufail p chunks 0 fs.index).2 = none)
    (hM : env.moveFails = false) :
    ((process_file env fs p).2 = .done ∧
     (process_file env fs p).1.processed
       (get_category p, toString env.epoch ++ "_" ++ p) = some c) ∧
    (∀ name, pyLower (pySuffix name) = ".pdf" → get_category name = "PDF") ∧
    (∀ name, pyLower (pySuffix name) ∈ ([".md", ".txt", ".html", ".htm"] : List String) →
        get_category name = "Documents") ∧
    (∀ name, pyLower (pySuffix name) ∈ ([".py", ".js", ".ts", ".go", ".cpp", ".h",
        ".java", ".yaml", ".yml"] : List String) → get_category name = "Code") ∧
    (∀ name, pyLower (pySuffix name) ∉ ([".pdf", ".md", ".txt", ".html", ".htm", ".py",
        ".js", ".ts", ".go", ".cpp", ".h", ".java", ".yaml", ".yml"] : List String) →
        get_category name = "Other") := by
  refine ⟨?_, get_category_pdf, get_category_documents, get_category_code, get_category_other⟩
  rcases hRp : runIndex env.embed env.ufail p chunks 0 fs.index with ⟨idx', e?⟩
  rw [hRp] at hR
  simp only at hR
  subst hR
  rw [process_file_done_of env fs p _ (processAttempt_ok env fs p c chunks idx' h hL hRp hM)]
  refine ⟨rfl, ?_⟩
  show Function.update fs.processed (destKey env p) (some c)
    (get_category p, toString env.epoch ++ "_" ++ p) = some c
  exact Function.update_same _ _ _

/-- Witness for C7: the concrete successful run, plus the spec's three
category examples. -/
theorem c7_witness :
    ((process_file env0 fs0 "a.txt").2 = .done ∧
     (process_file env0 fs0 "a.txt").1.processed
       (get_category "a.txt", toString env0.epoch ++ "_" ++ "a.txt") = some "new") ∧
    get_category "report.pdf" = "PDF" ∧
    get_category "notes.md" = "Documents" ∧
    get_category "script.unknownext" = "Other" := by
  have hc7 := c7_destination_and_category_table env0 fs0 "a.txt" "new" ["hello"]
    (by decide) rfl (by decide) rfl
  exact ⟨hc7.1, hc7.2.1 "report.pdf" (by decide), hc7.2.2.1 "notes.md" (by decide),
    hc7.2.2.2.2 "script.unknownext" (by decide)⟩

/-- Claim C8: `embedBatch` returns exactly one vector per input text, in the
same order as the inputs — the i-th returned vector is the embedding of the
i-th text; in particular a three-element batch comes back as three vectors in
order. -/
theorem c8_embed_batch_order (E : String → Vec) (texts : List String) :
    get_text_embeddings E texts = texts.map E ∧
    get_text_embeddings E ["a", "b", "c"] = [E "a", E "b", E "c"] := by
  constructor
  · simp only [get_text_embeddings, embeddingService, List.map_map]
    rfl
  · rfl

/-! ### The startup backlog scan -/

/-- The scan calls `process_file` on exactly the regular files, in directory
order, independently of the outcome of each call. -/
theorem backlogTrace_map_fst (envf : String → Env) :
    ∀ (fs : FS) (es : List Entry),
      ((backlogTrace envf fs es).2).map Prod.fst = backlogNames es := by
  intro fs es
  induction es generalizing fs with
  | nil => simp [backlogTrace, backlogNames]
  | cons e es ih =>
    cases hF : e.isFile with
    | true => simp [backlogTrace, backlogNames, hF, ih, List.filter_cons]
    | false => simp [backlogTrace, backlogNames, hF, ih, List.filter_cons]

/-- Distinct directory entries give a duplicate-free processing list. -/
theorem backlogNames_nodup (es : List Entry) (h : (es.map Entry.name).Nodup) :
    (backlogNames es).Nodup := by
  have hsub : List.Sublist (backlogNames es) (es.map Entry.name) :=
    (List.filter_sublist es).map Entry.name
  exact h.sublist hsub

/-- Every regular entry's name is in the processing list. -/
theorem mem_backlogNames_of (e : Entry) (es : List Entry) (he : e ∈ es)
    (hf : e.isFile = true) : e.name ∈ backlogNames es := by
  unfold backlogNames
  exact List.mem_map_of_mem Entry.name (List.mem_filter.mpr ⟨he, by simp [hf]⟩)

/-- Under distinct names, a non-regular entry's name is not processed. -/
theorem not_mem_backlogNames (es : List Entry) (hnd : (es.map Entry.name).Nodup)
    (e : Entry) (he : e ∈ es) (hf : e.isFile = false) :
    e.name ∉ backlogNames es := by
  intro hmem
  unfold backlogNames at hmem
  obtain ⟨e', he'mem, he'name⟩ := List.exists_of_mem_map hmem
  have he'f : e'.isFile = true := by
    have := (List.mem_filter.mp he'mem).2
    simpa using this
  have he'es : e' ∈ es := (List.mem_filter.mp he'mem).1
  have heq : e' = e := List.inj_on_of_nodup_map hnd he'es he he'name
  rw [heq, hf] at he'f
  cases he'f

/-- Claim C9: the startup backlog scan processes every regular file already
present exactly once — each regular entry's name occurs once in the trace of
`process_file` calls, non-regular entries are skipped — and, in addition, a
live creation notification for a non-directory path triggers exactly one
`process_file` call for it. -/
theorem c9_backlog_exactly_once (envf : String → Env) (fs : FS) (es : List Entry)
    (hnd : (es.map Entry.name).Nodup) :
    (∀ e ∈ es, e.isFile = true →
        (((backlogTrace envf fs es).2).map Prod.fst).count e.name = 1) ∧
    (∀ e ∈ es, e.isFile = false →
        (((backlogTrace envf fs es).2).map Prod.fst).count e.name = 0) ∧
    (∀ env fs2 ev, ev.isDirectory = false →
        ((on_created env fs2 ev).2).map Prod.fst = [ev.srcPath]) := by
  refine ⟨?_, ?_, ?_⟩
  · intro e he hf
    rw [backlogTrace_map_fst]
    exact List.count_eq_one_of_mem (backlogNames_nodup es hnd)
      (mem_backlogNames_of e es he hf)
  · intro e he hf
    rw [backlogTrace_map_fst]
    exact List.count_eq_zero.mpr (not_mem_backlogNames es hnd e he hf)
  · intro env fs2 ev hd
    simp [on_created, hd]

/-- Witness for C9: a two-entry directory, one regular file and one
subdirectory. -/
theorem c9_witness :
    ((([⟨"a.txt", true⟩, ⟨"sub", false⟩] : List Entry).map Entry.name).Nodup) ∧
    (((backlogTrace (fun _ => env0) fs0
        [⟨"a.txt", true⟩, ⟨"sub", false⟩]).2).map Prod.fst).count "a.txt" = 1 ∧
    (((backlogTrace (fun _ => env0) fs0
        [⟨"a.txt", true⟩, ⟨"sub", false⟩]).2).map Prod.fst).count "sub" = 0 :=
  ⟨by decide,
    (c9_backlog_exactly_once (fun _ => env0) fs0
      [⟨"a.txt", true⟩, ⟨"sub", false⟩] (by decide)).1 ⟨"a.txt", true⟩ (by decide) rfl,
    (c9_backlog_exactly_once (fun _ => env0) fs0
      [⟨"a.txt", true⟩, ⟨"sub", false⟩] (by decide)).2.1 ⟨"sub", false⟩ (by decide) rfl⟩

/-- Claim C10: processing one file never propagates an exception — every
raising path of the attempt ends in the caught `Failed` outcome at the state
reached, and the backlog loop goes on to call `process_file` on every regular
file regardless of earlier outcomes. -/
theorem c10_errors_contained :
    (∀ env fs p (s : FS) (e : Err), processAttempt env fs p = (s, some e) →
        process_file env fs p = (s, .failed e)) ∧
    (∀ (envf : String → Env) (fs : FS) (es : List Entry),
        ((backlogTrace envf fs es).2).map Prod.fst = backlogNames es) :=
  ⟨fun env fs p s e hA => process_file_failed_of env fs p s e hA,
    fun envf fs es => backlogTrace_map_fst envf fs es⟩

/-- Witness for C10: a concrete raising attempt (failed upsert) is caught and
reported as Failed. -/
theorem c10_witness :
    processAttempt env2 fs0 "a.txt" =
      ((processAttempt env2 fs0 "a.txt").1, some Err.upsert) ∧
    process_file env2 fs0 "a.txt" =
      ((processAttempt env2 fs0 "a.txt").1, Outcome.failed Err.upsert) := by
  have h2 : (processAttempt env2 fs0 "a.txt").2 = some Err.upsert := by decide
  have h : processAttempt env2 fs0 "a.txt" =
      ((processAttempt env2 fs0 "a.txt").1, some Err.upsert) := by
    rw [← h2]
  exact ⟨h, c10_errors_contained.1 env2 fs0 "a.txt" _ _ h⟩

end Ingest
